import Mathlib

/-
  A verification development for the TSN test-case generator
  (topology synthesis and route generation).

  The definitions below are shallow embeddings of the Python sources:
    - tsn_case_gen_/domain/topology_generator.py
        (_get_next_port, _generate_mesh_graph, the link-pair emission of
         generate() and _connect_domain_pair)
    - tsn_case_gen_/domain/route_generator.py
        (_build_graph, _find_paths, _generate_route_for_stream, generate,
         _update_link_utilization, _calculate_min_e2e_delay, _find_link)
    - tsn_case_gen_/domain/utils_functions.py (get_delays_from_traffic_type)

  Mutable Python state (used-port dictionaries, the networkx graph's
  per-edge utilization) is threaded explicitly.  Random draws
  (random.uniform delays, np.random.lognormal samples, random switch
  choices) are passed in as explicit parameters.  Fatal exits
  (sys.exit(1), raised ValueError) are modelled as error values.
-/

namespace TsnCaseGen

/-! ## Port allocation (`TopologyGenerator._get_next_port`) -/

/-- The `port_priorities` table of `_get_next_port`: priority-ordered
candidate ports per connection class; any unknown class falls back to the
`"default"` entry `list(range(8))`. -/
def portPriorities (connectionType : String) : List Nat :=
  if connectionType = "domain_connection" then [0, 1]
  else if connectionType = "switch_to_switch" then [2, 3, 4, 5]
  else if connectionType = "switch_to_end_system" then [6, 7, 0, 1, 2, 3, 4, 5]
  else [0, 1, 2, 3, 4, 5, 6, 7]

/-- The outcome of `_get_next_port`: a port from the priority list, a port
from the any-free-port fallback loop (which logs a warning), or the fatal
`sys.exit(1)` when all 8 ports are in use. -/
inductive PortResult where
  | ok (port : Nat)
  | fallback (port : Nat)
  | exhausted
deriving DecidableEq

/-- `TopologyGenerator._get_next_port`: return the first priority candidate
not already used by the switch; otherwise the first free port in
`range(8)`; otherwise fail. -/
def getNextPort (used : Finset Nat) (connectionType : String) : PortResult :=
  match (portPriorities connectionType).find? (fun p => decide (p ∉ used)) with
  | some p => PortResult.ok p
  | none =>
    match (List.range 8).find? (fun p => decide (p ∉ used)) with
    | some p => PortResult.fallback p
    | none => PortResult.exhausted

/-- The port actually handed to the caller, if allocation did not abort. -/
def portOf : PortResult → Option Nat
  | PortResult.ok p => some p
  | PortResult.fallback p => some p
  | PortResult.exhausted => none

/-! ## Link records and the link-pair emission state machine

`generate()` emits, for every edge of every domain graph, a forward and a
reverse `Link` dict (lines 188-218), and `_connect_domain_pair` does the
same for every inter-domain connection (lines 656-731).  Ports are drawn
from `_get_next_port` and immediately recorded in `self.used_ports`.
The per-connection work is captured by `runStep` below; a whole run of
`generate()` is a fold of `runStep` over the list of connections made. -/

/-- A `Link` record as stored in `topology["links"]`. -/
structure Link where
  id : String
  source : String
  destination : String
  sourcePort : Nat
  destinationPort : Nat
  domain : Nat
  bandwidthMbps : Nat
  delay : ℚ
deriving DecidableEq

/-- `_generate_link_properties`: bandwidth determined by the connection
class (10 Gbps inter-domain, 1 Gbps switch-switch, 100 Mbps access). -/
def bandwidthOf (connectionType : String) : Nat :=
  if connectionType = "domain_connection" then 10000
  else if connectionType = "switch_to_switch" then 1000
  else 100

/-- `f"Link{n}"`. -/
def linkName (n : Nat) : String := "Link" ++ toString n

/-- The Python `self.used_ports` dict: switch id to set of used ports. -/
abbrev PortMap : Type := List (String × Finset Nat)

/-- Dict lookup with the empty set for absent keys (`_get_next_port`
initializes absent keys to `set()`). -/
def portsOf (m : PortMap) (s : String) : Finset Nat :=
  match m.find? (fun kv => kv.1 == s) with
  | some kv => kv.2
  | none => ∅

/-- `self.used_ports[s].add(p)` (creating the entry when absent). -/
def addPortM (m : PortMap) (s : String) (p : Nat) : PortMap :=
  match m with
  | [] => [(s, {p})]
  | kv :: rest => if kv.1 = s then (s, insert p kv.2) :: rest else kv :: addPortM rest s p

/-- Generator state: used-port bookkeeping, links emitted so far, and the
`self.link_counter` used for link ids. -/
structure GenState where
  used : PortMap
  links : List Link
  linkCounter : Nat
deriving DecidableEq

/-- One logical connection made during topology generation.

* `connect u v ct du dv delay`: a switch-to-switch edge of a domain graph
  (ports drawn on both sides, lines 279-301 and 188-218) or an
  inter-domain connection (`_connect_domain_pair`); `du`/`dv` are the
  domains recorded on the forward/reverse links and `delay` is the value
  `random.uniform` produced for this link pair.
* `attachES sw es d delay`: an end-system attachment (lines 303-339); a
  port is drawn on the switch side only and the end-system side always
  uses port 0. -/
inductive Step where
  | connect (u v : String) (connectionType : String) (du dv : Nat) (delay : ℚ)
  | attachES (sw es : String) (d : Nat) (delay : ℚ)
deriving DecidableEq

/-- Execute one connection: draw the port(s), record them in `used_ports`,
and append the forward/reverse `Link` pair exactly as `generate()` /
`_connect_domain_pair` emit them (swapped endpoints, swapped ports, the
same `link_properties` dict spread into both records).  `none` models the
fatal `sys.exit(1)` of port exhaustion. -/
def runStep (st : GenState) : Step → Option GenState
  | Step.connect u v ct du dv delay =>
    match portOf (getNextPort (portsOf st.used u) ct) with
    | none => none
    | some p1 =>
      match portOf (getNextPort (portsOf st.used v) ct) with
      | none => none
      | some p2 =>
        some { used := addPortM (addPortM st.used u p1) v p2,
               links := st.links ++
                 [⟨linkName st.linkCounter, u, v, p1, p2, du, bandwidthOf ct, delay⟩,
                  ⟨linkName (st.linkCounter + 1), v, u, p2, p1, dv, bandwidthOf ct, delay⟩],
               linkCounter := st.linkCounter + 2 }
  | Step.attachES sw es d delay =>
    match portOf (getNextPort (portsOf st.used sw) "switch_to_end_system") with
    | none => none
    | some p =>
      some { used := addPortM st.used sw p,
             links := st.links ++
               [⟨linkName st.linkCounter, sw, es, p, 0, d,
                  bandwidthOf "switch_to_end_system", delay⟩,
                ⟨linkName (st.linkCounter + 1), es, sw, 0, p, d,
                  bandwidthOf "switch_to_end_system", delay⟩],
             linkCounter := st.linkCounter + 2 }

/-- Run a whole sequence of connections from a state. -/
def runFrom (st : GenState) : List Step → Option GenState
  | [] => some st
  | s :: rest =>
    match runStep st s with
    | none => none
    | some st' => runFrom st' rest

/-- The empty initial state of a `generate()` call. -/
def initState : GenState := { used := [], links := [], linkCounter := 0 }

/-- A full `generate()` run, given the sequence of connections it makes. -/
def run (steps : List Step) : Option GenState := runFrom initState steps

/-- Well-formedness of a connection sequence, as guaranteed by the
generator's callers: the two endpoints of a switch connection are distinct
switches and never previously-attached end systems; each attached end
system id is fresh (`ES{counter}` with a strictly increasing counter) and
never doubles as a switch.  `S` accumulates switch ids, `A` end-system
ids. -/
def stepsOK : List Step → Finset String → Finset String → Bool
  | [], _, _ => true
  | Step.connect u v _ _ _ _ :: rest, S, A =>
    decide (u ≠ v) && decide (u ∉ A) && decide (v ∉ A) &&
      stepsOK rest (insert u (insert v S)) A
  | Step.attachES sw es _ _ :: rest, S, A =>
    decide (sw ≠ es) && decide (sw ∉ A) && decide (es ∉ S) && decide (es ∉ A) &&
      stepsOK rest (insert sw S) (insert es A)

/-- The ports a node uses on its incident links: the `sourcePort` of links
leaving it together with the `destinationPort` of links entering it. -/
def incidentPorts (links : List Link) (s : String) : List Nat :=
  links.filterMap (fun l => if l.source = s then some l.sourcePort else none) ++
    links.filterMap (fun l => if l.destination = s then some l.destinationPort else none)

/-- Two links agree on the `(source, sourcePort)` pair. -/
def samePortKey (l1 l2 : Link) : Prop :=
  l1.source = l2.source ∧ l1.sourcePort = l2.sourcePort

instance : DecidableRel samePortKey := fun l1 l2 => by
  unfold samePortKey; infer_instance

/-- `l2` is the reverse record of `l1`: swapped endpoints, swapped ports,
identical bandwidth and delay. -/
def mirrorOf (l1 l2 : Link) : Prop :=
  l2.source = l1.destination ∧ l2.destination = l1.source ∧
    l2.sourcePort = l1.destinationPort ∧ l2.destinationPort = l1.sourcePort ∧
    l2.bandwidthMbps = l1.bandwidthMbps ∧ l2.delay = l1.delay

/-- A link list that decomposes into consecutive forward/reverse pairs. -/
inductive MirrorPaired : List Link → Prop
  | nil : MirrorPaired []
  | cons {l1 l2 : Link} {rest : List Link} :
      mirrorOf l1 l2 → MirrorPaired rest → MirrorPaired (l1 :: l2 :: rest)

/-! ## Mesh graph synthesis (`TopologyGenerator._generate_mesh_graph`) -/

/-- The node list of `nx.grid_2d_graph n m`. -/
def grid2dNodes (n m : Nat) : List (Nat × Nat) :=
  (List.range n).flatMap (fun i => (List.range m).map (fun j => (i, j)))

/-- The edge list of `nx.grid_2d_graph n m`: each cell connects to its
right and lower neighbour. -/
def grid2dEdges (n m : Nat) : List ((Nat × Nat) × (Nat × Nat)) :=
  (grid2dNodes n m).flatMap (fun p =>
    (if p.2 + 1 < m then [((p.1, p.2), (p.1, p.2 + 1))] else []) ++
      (if p.1 + 1 < n then [((p.1, p.2), (p.1 + 1, p.2))] else []))

/-- The undirected grid graph produced by a successful mesh synthesis. -/
structure MeshGraph where
  nodes : List (Nat × Nat)
  edges : List ((Nat × Nat) × (Nat × Nat))
deriving DecidableEq

/-- `_generate_mesh_graph`: the params argument models the parsed
`topology_params` dict (`none` for a missing/empty params string, inner
options for the `n`/`m` keys).  Every `logger.error` + `sys.exit(1)` exit
is an `Except.error`; the run produces a graph only when `n * m` equals
the requested switch count. -/
def generateMeshGraph (params : Option (Option Nat × Option Nat)) (numSwitches : Nat) :
    Except String MeshGraph :=
  match params with
  | none => Except.error "Missing topology parameters"
  | some (nOpt, mOpt) =>
    match nOpt, mOpt with
    | some n, some m =>
      if n * m < numSwitches then
        Except.error "Mesh graph size is smaller than requested number of switches"
      else if numSwitches < n * m then
        Except.error "Mesh graph size is larger than requested number of switches"
      else Except.ok ⟨grid2dNodes n m, grid2dEdges n m⟩
    | _, _ => Except.error "Missing parameters n or m"

/-- Whether a synthesis attempt produced a graph. -/
def meshOk : Except String MeshGraph → Bool
  | Except.ok _ => true
  | Except.error _ => false

/-! ## The routing graph (`RouteGenerator._build_graph`) -/

/-- One undirected edge of the routing graph, carrying the attribute dict
`_build_graph` attaches: link id, ports, bandwidth, and the running
`utilization` (initialised to 0.0). -/
structure REdge where
  u : String
  v : String
  linkId : String
  sourcePort : Nat
  destinationPort : Nat
  bandwidthMbps : ℚ
  utilization : ℚ
deriving DecidableEq

/-- The undirected `nx.Graph` built from the topology; `nodes` keeps
networkx's insertion order. -/
structure RGraph where
  nodes : List String
  edges : List REdge
deriving DecidableEq

/-- The topology dict consumed by `RouteGenerator`: node ids by kind plus
the directed `Link` records.  Links produced by `TopologyGenerator` always
carry a `bandwidth_mbps` key, so the `link.get("bandwidth_mbps", default)`
of `_build_graph` always finds it. -/
structure Topology where
  switchIds : List String
  endSystemIds : List String
  links : List Link
deriving DecidableEq

/-- Does the undirected edge join `a` and `b` (in either orientation)? -/
def REdge.touches (e : REdge) (a b : String) : Bool :=
  (e.u == a && e.v == b) || (e.u == b && e.v == a)

/-- `nx.Graph.add_edge` registers unseen endpoints as new nodes. -/
def addNode (ns : List String) (x : String) : List String :=
  if x ∈ ns then ns else ns ++ [x]

/-- Lexicographic code-point comparison of character lists: the order
Python's `sorted` uses on strings. -/
def charListLe : List Char → List Char → Bool
  | [], _ => true
  | _ :: _, [] => false
  | a :: as, b :: bs =>
    if a.val < b.val then true
    else if b.val < a.val then false
    else charListLe as bs

/-- Python's `<=` on strings (code-point lexicographic), as an executable
comparison. -/
def strLe (a b : String) : Bool := charListLe a.data b.data

/-- `tuple(sorted([source, dest]))`, the dedup key of `_build_graph`. -/
def linkKey (l : Link) : String × String :=
  if strLe l.source l.destination then (l.source, l.destination)
  else (l.destination, l.source)

/-- The link-processing loop of `_build_graph`: walk the directed links in
order, skip a link whose sorted key was already processed, otherwise add
one undirected edge (utilization 0.0) and register its endpoints. -/
def buildGraphAux : List Link → List String → List REdge → List (String × String) →
    List String × List REdge
  | [], ns, es, _ => (ns, es)
  | l :: ls, ns, es, seen =>
    if linkKey l ∈ seen then buildGraphAux ls ns es seen
    else
      buildGraphAux ls (addNode (addNode ns l.source) l.destination)
        (es ++ [⟨l.source, l.destination, l.id, l.sourcePort, l.destinationPort,
                 (l.bandwidthMbps : ℚ), 0⟩])
        (linkKey l :: seen)

/-- `RouteGenerator._build_graph`: switches and end systems become nodes,
then each logical connection becomes one undirected edge. -/
def buildGraph (topo : Topology) : RGraph :=
  let pair := buildGraphAux topo.links (topo.switchIds ++ topo.endSystemIds) [] []
  ⟨pair.1, pair.2⟩

/-- `self.graph.get_edge_data(a, b)`. -/
def getEdgeData (g : RGraph) (a b : String) : Option REdge :=
  g.edges.find? (fun e => e.touches a b)

/-! ## Path search (`RouteGenerator._find_paths`)

`nx.shortest_path` is embedded as "the minimum-weight simple path":
`simplePaths` enumerates the simple paths of the (finite) graph and
`shortestPathBy` picks the first one of minimal total weight.  With the
constant weight 1 this is shortest-by-hop-count (`weight=None`); the
iterative alternate-path search re-weights edges exactly as the source
doubles the `weight` attribute of every edge used by an already-found
path (missing attribute defaults to 1.0). -/

/-- The neighbours of `a`, in edge-insertion order. -/
def neighbors (g : RGraph) (a : String) : List String :=
  g.edges.filterMap (fun e =>
    if e.u = a then some e.v else if e.v = a then some e.u else none)

/-- All simple paths from `c` to `t` that avoid `visited`, with at most
`fuel` further hops. -/
def simplePathsAux (g : RGraph) (t : String) (fuel : Nat) (visited : List String)
    (c : String) : List (List String) :=
  if c = t then [[c]]
  else
    match fuel with
    | 0 => []
    | f + 1 =>
      ((neighbors g c).filter (fun n => decide (n ∉ c :: visited))).flatMap
        (fun n => (simplePathsAux g t f (c :: visited) n).map (fun p => c :: p))

/-- All simple paths from `s` to `t`; a simple path visits at most
`g.nodes.length` nodes, so that fuel is exhaustive. -/
def simplePaths (g : RGraph) (s t : String) : List (List String) :=
  simplePathsAux g t g.nodes.length [] s

/-- The consecutive node pairs of a path (its traversed edges). -/
def pathPairs : List String → List (String × String)
  | [] => []
  | [_] => []
  | a :: b :: rest => (a, b) :: pathPairs (b :: rest)

/-- Total weight of a path under a per-edge weight function. -/
def pathWeight (w : String → String → ℚ) (p : List String) : ℚ :=
  ((pathPairs p).map (fun q => w q.1 q.2)).sum

/-- The first element of minimal value: a deterministic tie-break for the
(unspecified) tie-breaking of `nx.shortest_path`. -/
def argminBy (f : List String → ℚ) : List (List String) → Option (List String)
  | [] => none
  | p :: rest => some (rest.foldl (fun best q => if f q < f best then q else best) p)

/-- `nx.shortest_path g s t weight`: a minimum-weight simple path. -/
def shortestPathBy (g : RGraph) (w : String → String → ℚ) (s t : String) :
    Option (List String) :=
  argminBy (pathWeight w) (simplePaths g s t)

/-- The weight used for the first path: hop count (`weight=None`), or
`1.0 + data.get("utilization", 0.0)` when utilization-aware routing is
enabled. -/
def firstPathWeight (g : RGraph) (considerUtil : Bool) : String → String → ℚ :=
  fun a b =>
    if considerUtil then
      1 + (match getEdgeData g a b with
           | some e => e.utilization
           | none => 0)
    else 1

/-- Does path `p` traverse the undirected edge `{a, b}`? -/
def onPath (a b : String) (p : List String) : Bool :=
  (pathPairs p).any (fun q => (q.1 == a && q.2 == b) || (q.1 == b && q.2 == a))

/-- How many already-found paths use the edge `{a, b}`. -/
def edgeUseCount (ps : List (List String)) (a b : String) : Nat :=
  (ps.filter (onPath a b)).length

/-- The `weight` attribute on the per-iteration working copy: each found
path doubles the weight of every edge it uses (base value 1.0). -/
def tempWeight (ps : List (List String)) : String → String → ℚ :=
  fun a b => 2 ^ edgeUseCount ps a b

/-- The `for _ in range(num_paths - 1)` loop of `_find_paths`: recompute a
shortest path under the doubled weights, append it only when it differs
from every path found so far, stop early once `numPaths` are found, and
give up (keeping what was found) when no path comes back. -/
def findPathsExtra (g : RGraph) (s t : String) (numPaths : Nat) :
    Nat → List (List String) → List (List String)
  | 0, ps => ps
  | f + 1, ps =>
    match shortestPathBy g (tempWeight ps) s t with
    | none => ps
    | some p =>
      if p ∈ ps then findPathsExtra g s t numPaths f ps
      else
        let ps' := ps ++ [p]
        if numPaths ≤ ps'.length then ps'
        else findPathsExtra g s t numPaths f ps'

/-- `RouteGenerator._find_paths` for the supported `shortest_path`
algorithm. -/
def findPaths (g : RGraph) (considerUtil : Bool) (s t : String) (numPaths : Nat) :
    List (List String) :=
  if (simplePaths g s t).isEmpty then []
  else
    match shortestPathBy g (firstPathWeight g considerUtil) s t with
    | none => []
    | some p0 =>
      if numPaths ≤ 1 then [p0]
      else (findPathsExtra g s t numPaths (numPaths - 1) [p0]).take numPaths

/-! ## Streams, traffic types, delay estimation -/

/-- One entry of a stream's `destinations` list: `{id, deadline}`. -/
structure StreamDest where
  id : String
  deadline : Option ℚ
deriving DecidableEq

/-- A stream dict as consumed by `_generate_route_for_stream`.  The
`deadline` field models the *top-level* `"deadline"` key read by
`stream.get("deadline", None)`; stream dicts produced by
`StreamGenerator` carry deadlines only inside `destinations`, never at
top level, so for them it is `none`.  `redundancy` models
`stream.get("redundancy", 0)` (an absent key is the default 0). -/
structure Stream where
  id : Nat
  source : String
  destinations : List StreamDest
  type : Option String
  size : Nat
  period : Option ℚ
  redundancy : Nat
  deadline : Option ℚ
deriving DecidableEq

/-- A traffic-type definition from the configuration. -/
structure TrafficType where
  name : String
  minDelay : Option ℚ
  maxDelay : Option ℚ
deriving DecidableEq

/-- `utils_functions.get_delays_from_traffic_type`: the `(min_delay,
max_delay)` of the first traffic type with a matching name, `none`
(Python `None`) when no name matches. -/
def getDelaysFromTrafficType (trafficTypeName : String) (trafficTypes : List TrafficType) :
    Option (Option ℚ × Option ℚ) :=
  (trafficTypes.find? (fun t => t.name == trafficTypeName)).map
    (fun t => (t.minDelay, t.maxDelay))

/-- `np.clip(x, lo, hi)`. -/
def clip (x lo hi : ℚ) : ℚ := min (max x lo) hi

/-- `RouteGenerator._calculate_min_e2e_delay`.  `sample` is the value the
`np.random.lognormal` draw produced (its distribution parameters — the
mean and standard deviation of `{min_delay, max_delay}` — do not affect
the result beyond the draw itself).  `none` models the raised
`ValueError` for an unknown traffic type or missing delay bounds. -/
def calculateMinE2EDelay (trafficTypes : List TrafficType) (sample : ℚ)
    (path : List String) (trafficType : Option String) (deadline : Option ℚ) :
    Option ℚ :=
  if trafficType = some "BEST-EFFORT" then some 0
  else
    match trafficType.bind (fun n => getDelaysFromTrafficType n trafficTypes) with
    | none => none
    | some (minOpt, maxOpt) =>
      match minOpt, maxOpt with
      | some minDelay, some maxDelay =>
        let numHops : ℚ := ((path.length - 1 : Nat) : ℚ)
        let clippedDelay := clip sample minDelay maxDelay
        let totalDelay := clippedDelay * numHops
        some (match deadline with
              | some d => min totalDelay d
              | none => totalDelay)
      | _, _ => none

/-! ## Route materialisation and utilization accounting -/

/-- One `{node, port}` hop of an output path. -/
structure Hop where
  node : String
  port : Nat
deriving DecidableEq

/-- An emitted route record. -/
structure Route where
  flowId : Nat
  paths : List (List Hop)
  minE2EDelay : ℚ
deriving DecidableEq

/-- `RouteGenerator._find_link`: the first directed link record matching
`(source, destination)`. -/
def findLink (links : List Link) (a b : String) : Option Link :=
  links.find? (fun l => l.source == a && l.destination == b)

/-- The directed-path materialisation loop of `_generate_route_for_stream`
(lines 221-246): each hop uses the `sourcePort` of the matching directed
link (0 when the link is missing); the terminal node uses port 0. -/
def materializePath (links : List Link) : List String → List Hop
  | [] => []
  | [a] => [⟨a, 0⟩]
  | a :: b :: rest =>
    (⟨a, match findLink links a b with
         | some l => l.sourcePort
         | none => 0⟩ : Hop) :: materializePath links (b :: rest)

/-- `min(new_utilization, 100.0)`: the per-link utilization update is
capped at 100%. -/
def bumpUtilization (current share : ℚ) : ℚ := min (current + share) 100

/-- Update the (unique) edge joining `a` and `b`: add this stream's share
of the link's bandwidth to its running utilization, saturating at 100.
A well-formed path only traverses existing edges, so the no-match case
leaves the list unchanged. -/
def updateEdgesForHop (es : List REdge) (a b : String) (bandwidthBps : ℚ) : List REdge :=
  match es with
  | [] => []
  | e :: rest =>
    if e.touches a b then
      { e with utilization :=
          bumpUtilization e.utilization (bandwidthBps / (e.bandwidthMbps * 1000000) * 100) }
        :: rest
    else e :: updateEdgesForHop rest a b bandwidthBps

/-- Apply the per-hop update along one path. -/
def updatePathUtil (g : RGraph) (bandwidthBps : ℚ) (p : List String) : RGraph :=
  { g with edges :=
      (pathPairs p).foldl (fun es q => updateEdgesForHop es q.1 q.2 bandwidthBps) g.edges }

/-- `RouteGenerator._update_link_utilization`: a no-op when
utilization-aware routing is off or the stream has no period; otherwise
reserve `size * 8 / (period / 1e6)` bits per second on every link of
every path, as a percentage of that link's bandwidth, capped at 100. -/
def updateLinkUtilization (g : RGraph) (considerUtil : Bool) (stream : Stream)
    (paths : List (List String)) : RGraph :=
  if considerUtil = false then g
  else
    match stream.period with
    | none => g
    | some period =>
      let packetSizeBits : ℚ := (stream.size : ℚ) * 8
      let periodSeconds : ℚ := period / 1000000
      let bandwidthBps : ℚ := packetSizeBits / periodSeconds
      paths.foldl (fun h p => updatePathUtil h bandwidthBps p) g

/-! ## Per-stream route generation and the driver loop -/

/-- The outcome of `_generate_route_for_stream` on one stream: a rejection
(`return None` with a warning — missing endpoint or no path), an emitted
route, or an uncaught exception (`ValueError` from the delay calculation,
or the `all_paths[0]` lookup on an empty destination list), which aborts
the whole run. -/
inductive StreamResult where
  | rejected
  | ok (r : Route)
  | fatal
deriving DecidableEq

/-- The per-destination loop of `_generate_route_for_stream` (lines
198-208): `redundancy + 1` paths are requested per destination; if some
destination yields no path at all the stream is rejected. -/
def allPathsForDests (g : RGraph) (considerUtil : Bool) (source : String)
    (numPaths : Nat) : List StreamDest → Option (List (List String))
  | [] => some []
  | d :: rest =>
    let ps := findPaths g considerUtil source d.id numPaths
    if ps.isEmpty then none
    else
      match allPathsForDests g considerUtil source numPaths rest with
      | none => none
      | some more => some (ps ++ more)

/-- `RouteGenerator._generate_route_for_stream`, returning the outcome and
the graph (whose per-edge utilization it may have updated). -/
def generateRouteForStream (topoLinks : List Link) (g : RGraph) (considerUtil : Bool)
    (trafficTypes : List TrafficType) (sample : ℚ) (stream : Stream) :
    StreamResult × RGraph :=
  if stream.source ∉ g.nodes then (StreamResult.rejected, g)
  else if stream.destinations.any (fun d => decide (d.id ∉ g.nodes)) then
    (StreamResult.rejected, g)
  else
    match allPathsForDests g considerUtil stream.source (stream.redundancy + 1)
        stream.destinations with
    | none => (StreamResult.rejected, g)
    | some allPaths =>
      match allPaths with
      | [] => (StreamResult.fatal, g)
      | p0 :: _ =>
        match calculateMinE2EDelay trafficTypes sample p0 stream.type stream.deadline with
        | none => (StreamResult.fatal, g)
        | some delay =>
          ((StreamResult.ok
              ⟨stream.id, allPaths.map (materializePath topoLinks), delay⟩),
            updateLinkUtilization g considerUtil stream allPaths)

/-- The loop of `RouteGenerator.generate`: process the streams in order,
collecting the emitted routes and threading the graph; a rejected stream
is simply skipped, while an uncaught exception aborts the run (`none`).
`sampleFn` supplies each stream's log-normal draw. -/
def generateRoutesAux (topoLinks : List Link) (considerUtil : Bool)
    (trafficTypes : List TrafficType) (sampleFn : Stream → ℚ) :
    List Stream → RGraph → Option (List Route × RGraph)
  | [], g => some ([], g)
  | s :: rest, g =>
    match generateRouteForStream topoLinks g considerUtil trafficTypes (sampleFn s) s with
    | (StreamResult.fatal, _) => none
    | (StreamResult.rejected, g') => generateRoutesAux topoLinks considerUtil trafficTypes sampleFn rest g'
    | (StreamResult.ok r, g') =>
      (generateRoutesAux topoLinks considerUtil trafficTypes sampleFn rest g').map
        (fun res => (r :: res.1, res.2))

/-- `RouteGenerator.generate` over a topology: build the graph, then route
every stream. -/
def generateRoutes (topo : Topology) (considerUtil : Bool)
    (trafficTypes : List TrafficType) (sampleFn : Stream → ℚ) (streams : List Stream) :
    Option (List Route × RGraph) :=
  generateRoutesAux topo.links considerUtil trafficTypes sampleFn streams (buildGraph topo)

/-- The delay recorded by a successful outcome. -/
def resultDelay : StreamResult → Option ℚ
  | StreamResult.ok r => some r.minE2EDelay
  | _ => none

/-- The hop paths recorded by a successful outcome. -/
def resultPaths : StreamResult → Option (List (List Hop))
  | StreamResult.ok r => some r.paths
  | _ => none

/-! ## Invariant and concrete instances used in the proofs -/

/-- The port-bookkeeping invariant maintained while connections are made:
switch and end-system ids are disjoint, no two links share a
`(source, sourcePort)` key, every link endpoint is a known switch (`S`)
or end system (`A`), every switch-side port of a link is recorded in
`used_ports`, end-system link ends always use port 0, and every recorded
port lies in `0..7`. -/
def PortInv (st : GenState) (S A : Finset String) : Prop :=
  (∀ x, x ∈ S → x ∈ A → False) ∧
  List.Pairwise (fun l1 l2 => ¬ samePortKey l1 l2) st.links ∧
  (∀ l ∈ st.links, l.source ∈ S ∪ A ∧ l.destination ∈ S ∪ A) ∧
  (∀ l ∈ st.links, l.source ∈ S → l.sourcePort ∈ portsOf st.used l.source) ∧
  (∀ l ∈ st.links, l.destination ∈ S →
    l.destinationPort ∈ portsOf st.used l.destination) ∧
  (∀ l ∈ st.links, l.source ∈ A → l.sourcePort = 0) ∧
  (∀ l ∈ st.links, l.destination ∈ A → l.destinationPort = 0) ∧
  (∀ s, portsOf st.used s ⊆ Finset.range 8)

/-- A small generator run: two switches connected to each other, one end
system attached to each (the sampled link delays are 25 and 5). -/
def demoSteps : List Step :=
  [Step.connect "SW0" "SW1" "switch_to_switch" 0 0 25,
   Step.attachES "SW0" "ES0" 0 5,
   Step.attachES "SW1" "ES1" 0 5]

/-- The links `run demoSteps` emits (also used as a topology below). -/
def demoTopoLinks : List Link :=
  [⟨"Link0", "SW0", "SW1", 2, 2, 0, 1000, 25⟩,
   ⟨"Link1", "SW1", "SW0", 2, 2, 0, 1000, 25⟩,
   ⟨"Link2", "SW0", "ES0", 6, 0, 0, 100, 5⟩,
   ⟨"Link3", "ES0", "SW0", 0, 6, 0, 100, 5⟩,
   ⟨"Link4", "SW1", "ES1", 6, 0, 0, 100, 5⟩,
   ⟨"Link5", "ES1", "SW1", 0, 6, 0, 100, 5⟩]

/-- The final state of `run demoSteps`. -/
def demoGenState : GenState :=
  ⟨[("SW0", {6, 2}), ("SW1", {6, 2})], demoTopoLinks, 6⟩

/-- The topology those links form: `ES0 - SW0 - SW1 - ES1`. -/
def demoTopo : Topology := ⟨["SW0", "SW1"], ["ES0", "ES1"], demoTopoLinks⟩

/-- One configured traffic type with delay bounds 100..500. -/
def demoTts : List TrafficType := [⟨"ISOCHRONOUS", some 100, some 500⟩]

/-- A periodic stream from ES0 to ES1 whose destination record carries
deadline 100; as produced by `StreamGenerator`, there is no top-level
`"deadline"` key. -/
def demoStream : Stream :=
  ⟨1, "ES0", [⟨"ES1", some 100⟩], some "ISOCHRONOUS", 100, some 1000, 0, none⟩

/-- The route the engine emits for `demoStream` (log-normal draw 250). -/
def demoRoute : Route :=
  ⟨1, [[⟨"ES0", 0⟩, ⟨"SW0", 2⟩, ⟨"SW1", 6⟩, ⟨"ES1", 0⟩]], 750⟩

/-- A two-node topology whose only simple path from A to B is the direct
link. -/
def twoTopo : Topology :=
  ⟨["A", "B"], [],
   [⟨"L0", "A", "B", 2, 2, 0, 1000, 25⟩, ⟨"L1", "B", "A", 2, 2, 0, 1000, 25⟩]⟩

/-- A stream with redundancy 1 (so 2 paths requested) across `twoTopo`. -/
def twoStream : Stream := ⟨7, "A", [⟨"B", none⟩], some "ISOCHRONOUS", 100, none, 1, none⟩

/-- The route emitted for `twoStream`: a single path, and the run goes on. -/
def twoRoute : Route := ⟨7, [[⟨"A", 2⟩, ⟨"B", 0⟩]], 250⟩

/-- A stream carrying a top-level `"deadline"` key of 300. -/
def capStream : Stream :=
  ⟨9, "ES0", [⟨"ES1", none⟩], some "ISOCHRONOUS", 100, none, 0, some 300⟩

/-- The route emitted for `capStream`: its delay is capped at 300. -/
def capRoute : Route :=
  ⟨9, [[⟨"ES0", 0⟩, ⟨"SW0", 2⟩, ⟨"SW1", 6⟩, ⟨"ES1", 0⟩]], 300⟩

/-- A periodic stream whose source id does not exist in `demoTopo`. -/
def badStream : Stream :=
  ⟨3, "MISSING", [⟨"ES1", none⟩], some "ISOCHRONOUS", 100, some 1000, 0, none⟩

/-! ## Lemmas about the port allocator -/

theorem find?_mem_split {used : Finset Nat} {l : List Nat} {q : Nat}
    (h : l.find? (fun p => decide (p ∉ used)) = some q) :
    q ∉ used ∧ ∃ l1 l2, l = l1 ++ q :: l2 ∧ ∀ r ∈ l1, r ∈ used := by
  induction l with
  | nil => simp at h
  | cons a t ih =>
    by_cases ha : a ∈ used
    · rw [List.find?_cons_of_neg] at h
      · obtain ⟨hq, l1, l2, heq, hall⟩ := ih h
        refine ⟨hq, a :: l1, l2, by rw [heq]; simp, ?_⟩
        intro r hr
        rcases List.mem_cons.mp hr with h1 | h1
        · exact h1 ▸ ha
        · exact hall r h1
      · simpa using ha
    · rw [List.find?_cons_of_pos] at h
      · cases h
        exact ⟨ha, [], t, rfl, by simp⟩
      · simpa using ha

theorem find?_range'_least (pred : Nat → Bool) :
    ∀ (n s q : Nat), (List.range' s n).find? pred = some q →
      pred q = true ∧ s ≤ q ∧ q < s + n ∧ ∀ r, s ≤ r → r < q → pred r = false := by
  intro n
  induction n with
  | zero => intro s q h; simp [List.range'] at h
  | succ k ih =>
    intro s q h
    rw [List.range'_succ] at h
    by_cases hs : pred s
    · rw [List.find?_cons_of_pos _ hs] at h
      cases h
      exact ⟨hs, le_refl _, by omega, fun r h1 h2 => absurd h1 (by omega)⟩
    · rw [List.find?_cons_of_neg _ hs] at h
      obtain ⟨h1, h2, h3, h4⟩ := ih (s + 1) q h
      refine ⟨h1, by omega, by omega, ?_⟩
      intro r hr1 hr2
      rcases Nat.eq_or_lt_of_le hr1 with he | hl
      · rw [← he]; simpa using hs
      · exact h4 r hl hr2

theorem find?_range_least {pred : Nat → Bool} {n q : Nat}
    (h : (List.range n).find? pred = some q) :
    pred q = true ∧ q < n ∧ ∀ r, r < q → pred r = false := by
  rw [List.range_eq_range'] at h
  obtain ⟨h1, _, h3, h4⟩ := find?_range'_least pred n 0 q h
  exact ⟨h1, by omega, fun r hr => h4 r (Nat.zero_le r) hr⟩

theorem portPriorities_lt_eight (ct : String) : ∀ p ∈ portPriorities ct, p < 8 := by
  unfold portPriorities
  split_ifs <;> decide

theorem portOf_some {used : Finset Nat} {ct : String} {p : Nat}
    (h : portOf (getNextPort used ct) = some p) : p ∉ used ∧ p < 8 := by
  unfold getNextPort at h
  cases hf : (portPriorities ct).find? (fun q => decide (q ∉ used)) with
  | some a =>
    rw [hf] at h
    simp only [portOf, Option.some.injEq] at h
    obtain ⟨hq, l1, l2, heq, _⟩ := find?_mem_split hf
    subst h
    exact ⟨hq, portPriorities_lt_eight ct _ (by rw [heq]; simp)⟩
  | none =>
    rw [hf] at h
    cases hg : (List.range 8).find? (fun q => decide (q ∉ used)) with
    | some b =>
      rw [hg] at h
      simp only [portOf, Option.some.injEq] at h
      obtain ⟨h1, h2, _⟩ := find?_range_least hg
      subst h
      exact ⟨by simpa using h1, h2⟩
    | none =>
      rw [hg] at h
      simp [portOf] at h

/-- C7: port allocation returns the first free port of the class's
priority list; when every priority candidate is taken it returns the
smallest free port in `0..7` (the warning path); and it reports
exhaustion exactly when all 8 ports of the switch are in use. -/
theorem c7_port_allocation_priority (used : Finset Nat) (ct : String) :
    (∀ q, getNextPort used ct = PortResult.ok q →
        q ∉ used ∧ ∃ l1 l2, portPriorities ct = l1 ++ q :: l2 ∧ ∀ r ∈ l1, r ∈ used) ∧
    (∀ q, getNextPort used ct = PortResult.fallback q →
        q ∉ used ∧ q < 8 ∧ (∀ r ∈ portPriorities ct, r ∈ used) ∧
          ∀ r, r < q → r ∈ used) ∧
    (getNextPort used ct = PortResult.exhausted ↔ ∀ r, r < 8 → r ∈ used) := by
  refine ⟨?_, ?_, ?_⟩
  · intro q hq
    unfold getNextPort at hq
    cases hf : (portPriorities ct).find? (fun r => decide (r ∉ used)) with
    | some a =>
      rw [hf] at hq
      cases hq
      exact find?_mem_split hf
    | none =>
      rw [hf] at hq
      cases hg : (List.range 8).find? (fun r => decide (r ∉ used)) with
      | some b => rw [hg] at hq; cases hq
      | none => rw [hg] at hq; cases hq
  · intro q hq
    unfold getNextPort at hq
    cases hf : (portPriorities ct).find? (fun r => decide (r ∉ used)) with
    | some a => rw [hf] at hq; cases hq
    | none =>
      rw [hf] at hq
      cases hg : (List.range 8).find? (fun r => decide (r ∉ used)) with
      | some b =>
        rw [hg] at hq
        cases hq
        obtain ⟨h1, h2, h3⟩ := find?_range_least hg
        have hall : ∀ r ∈ portPriorities ct, r ∈ used := by
          intro r hr
          have := List.find?_eq_none.mp hf r hr
          simpa using this
        refine ⟨by simpa using h1, h2, hall, ?_⟩
        intro r hr
        have := h3 r hr
        simpa using this
      | none => rw [hg] at hq; cases hq
  · constructor
    · intro hq r hr
      unfold getNextPort at hq
      cases hf : (portPriorities ct).find? (fun x => decide (x ∉ used)) with
      | some a => rw [hf] at hq; cases hq
      | none =>
        rw [hf] at hq
        cases hg : (List.range 8).find? (fun x => decide (x ∉ used)) with
        | some b => rw [hg] at hq; cases hq
        | none =>
          have := List.find?_eq_none.mp hg r (List.mem_range.mpr hr)
          simpa using this
    · intro hall
      unfold getNextPort
      have hf : (portPriorities ct).find? (fun x => decide (x ∉ used)) = none := by
        rw [List.find?_eq_none]
        intro x hx
        simpa using hall x (portPriorities_lt_eight ct x hx)
      have hg : (List.range 8).find? (fun x => decide (x ∉ used)) = none := by
        rw [List.find?_eq_none]
        intro x hx
        simpa using hall x (List.mem_range.mp hx)
      rw [hf, hg]

/-- Witness for C7 at a concrete input: with ports 0, 2, 3, 4, 5 taken,
a switch-to-switch request falls back to port 1 (free, below 8). -/
theorem c7_port_allocation_priority_witness :
    (1 : Nat) ∉ ({0, 2, 3, 4, 5} : Finset Nat) ∧ (1 : Nat) < 8 :=
  ⟨((c7_port_allocation_priority {0, 2, 3, 4, 5} "switch_to_switch").2.1 1
      (by decide)).1,
   ((c7_port_allocation_priority {0, 2, 3, 4, 5} "switch_to_switch").2.1 1
      (by decide)).2.1⟩

/-- C8: mesh synthesis fails (no graph is produced) whenever `n * m`
differs from the requested switch count and succeeds exactly when they
agree. -/
theorem c8_mesh_size_mismatch (n m k : Nat) :
    (n * m ≠ k → meshOk (generateMeshGraph (some (some n, some m)) k) = false) ∧
    (n * m = k →
      generateMeshGraph (some (some n, some m)) k =
        Except.ok ⟨grid2dNodes n m, grid2dEdges n m⟩) := by
  constructor
  · intro hne
    simp only [generateMeshGraph]
    rcases Nat.lt_or_ge (n * m) k with hlt | hge
    · rw [if_pos hlt]; rfl
    · have hgt : k < n * m := by omega
      rw [if_neg (by omega), if_pos hgt]
      rfl
  · intro he
    simp only [generateMeshGraph]
    rw [if_neg (by omega), if_neg (by omega)]

/-- Witness for C8 at the claim's example: n=2, m=3, switchCount=4 is
rejected. -/
theorem c8_mesh_size_mismatch_witness :
    meshOk (generateMeshGraph (some (some 2, some 3)) 4) = false :=
  (c8_mesh_size_mismatch 2 3 4).1 (by decide)

/-! ## Lemmas about the used-port dictionary -/

theorem portsOf_cons (kv : String × Finset Nat) (l : PortMap) (s : String) :
    portsOf (kv :: l) s = if kv.1 = s then kv.2 else portsOf l s := by
  unfold portsOf
  by_cases h : kv.1 = s
  · rw [List.find?_cons_of_pos _ (by simpa using h), if_pos h]
  · rw [List.find?_cons_of_neg _ (by simpa using h), if_neg h]

theorem portsOf_addPortM_same (m : PortMap) (s : String) (p : Nat) :
    portsOf (addPortM m s p) s = insert p (portsOf m s) := by
  induction m with
  | nil => simp [addPortM, portsOf_cons, portsOf]
  | cons kv rest ih =>
    by_cases h : kv.1 = s
    · simp [addPortM, h, portsOf_cons]
    · simp [addPortM, h, portsOf_cons, ih]

theorem portsOf_addPortM_other (m : PortMap) (s t : String) (p : Nat) (h : t ≠ s) :
    portsOf (addPortM m s p) t = portsOf m t := by
  induction m with
  | nil => simp [addPortM, portsOf_cons, portsOf, Ne.symm h]
  | cons kv rest ih =>
    by_cases hk : kv.1 = s
    · subst hk
      simp [addPortM, portsOf_cons, Ne.symm h]
    · simp [addPortM, hk, portsOf_cons, ih]

theorem portsOf_addPortM_subset (m : PortMap) (s t : String) (p : Nat) :
    portsOf m t ⊆ portsOf (addPortM m s p) t := by
  by_cases h : t = s
  · subst h
    rw [portsOf_addPortM_same]
    exact Finset.subset_insert _ _
  · rw [portsOf_addPortM_other m s t p h]

/-! ## C2: every connection emits a mirrored pair of links -/

theorem mirrorPaired_append {ls : List Link} {a b : Link}
    (h : MirrorPaired ls) (hm : mirrorOf a b) : MirrorPaired (ls ++ [a, b]) := by
  induction h with
  | nil => exact MirrorPaired.cons hm MirrorPaired.nil
  | cons h1 _ ih => exact MirrorPaired.cons h1 ih

theorem runStep_links {st st' : GenState} {s : Step} (h : runStep st s = some st') :
    ∃ f r, mirrorOf f r ∧ st'.links = st.links ++ [f, r] := by
  cases s with
  | connect u v ct du dv delay =>
    simp only [runStep] at h
    cases h1 : portOf (getNextPort (portsOf st.used u) ct) with
    | none => rw [h1] at h; cases h
    | some p1 =>
      rw [h1] at h
      cases h2 : portOf (getNextPort (portsOf st.used v) ct) with
      | none => rw [h2] at h; cases h
      | some p2 =>
        rw [h2] at h
        cases h
        exact ⟨⟨linkName st.linkCounter, u, v, p1, p2, du, bandwidthOf ct, delay⟩,
          ⟨linkName (st.linkCounter + 1), v, u, p2, p1, dv, bandwidthOf ct, delay⟩,
          ⟨rfl, rfl, rfl, rfl, rfl, rfl⟩, rfl⟩
  | attachES sw es d delay =>
    simp only [runStep] at h
    cases h1 : portOf (getNextPort (portsOf st.used sw) "switch_to_end_system") with
    | none => rw [h1] at h; cases h
    | some p =>
      rw [h1] at h
      cases h
      exact ⟨⟨linkName st.linkCounter, sw, es, p, 0, d,
          bandwidthOf "switch_to_end_system", delay⟩,
        ⟨linkName (st.linkCounter + 1), es, sw, 0, p, d,
          bandwidthOf "switch_to_end_system", delay⟩,
        ⟨rfl, rfl, rfl, rfl, rfl, rfl⟩, rfl⟩

theorem runFrom_mirror : ∀ (steps : List Step) (st st' : GenState),
    runFrom st steps = some st' → MirrorPaired st.links →
    MirrorPaired st'.links ∧ st'.links.length = st.links.length + 2 * steps.length := by
  intro steps
  induction steps with
  | nil =>
    intro st st' h hm
    cases h
    simpa using hm
  | cons s rest ih =>
    intro st st' h hm
    simp only [runFrom] at h
    cases hs : runStep st s with
    | none => rw [hs] at h; cases h
    | some st1 =>
      rw [hs] at h
      obtain ⟨f, r, hfr, hlinks⟩ := runStep_links hs
      obtain ⟨hm', hlen⟩ := ih st1 st' h (by rw [hlinks]; exact mirrorPaired_append hm hfr)
      refine ⟨hm', ?_⟩
      rw [hlen, hlinks]
      simp [List.length_append]
      ring

/-- C2: in every topology the generator produces, each logical connection
appears as exactly two Link records — the second with swapped
`(source, destination)`, swapped `(sourcePort, destinationPort)`, and the
same bandwidth and delay as the first. -/
theorem c2_link_round_trip (steps : List Step) (st : GenState)
    (hrun : run steps = some st) :
    MirrorPaired st.links ∧ st.links.length = 2 * steps.length := by
  obtain ⟨hm, hlen⟩ := runFrom_mirror steps initState st hrun MirrorPaired.nil
  exact ⟨hm, by simpa [initState] using hlen⟩

/-- Witness for C2: the demo run's six links form three mirrored pairs. -/
theorem c2_link_round_trip_witness :
    MirrorPaired demoGenState.links ∧ demoGenState.links.length = 2 * demoSteps.length :=
  c2_link_round_trip demoSteps demoGenState (by decide)

/-! ## C1: per-switch port uniqueness and the capacity bound -/

theorem no_samePortKey_of_fresh {st : GenState} {S A : Finset String}
    (hinv : PortInv st S A) {x : Link} (hx : x ∈ st.links) {src : String} {p : Nat}
    (hA : src ∉ A) (hp : p ∉ portsOf st.used src) :
    ¬ (x.source = src ∧ x.sourcePort = p) := by
  rintro ⟨h1, h2⟩
  obtain ⟨_, _, hmem, hsrcS, _, _, _, _⟩ := hinv
  rcases Finset.mem_union.mp (hmem x hx).1 with hS | hA'
  · exact hp (by rw [← h1, ← h2]; exact hsrcS x hx hS)
  · exact hA (h1 ▸ hA')

theorem portInv_connect {st st' : GenState} {S A : Finset String}
    {u v ct : String} {du dv : Nat} {delay : ℚ}
    (hinv : PortInv st S A) (huv : u ≠ v) (huA : u ∉ A) (hvA : v ∉ A)
    (hrun : runStep st (Step.connect u v ct du dv delay) = some st') :
    PortInv st' (insert u (insert v S)) A := by
  simp only [runStep] at hrun
  cases h1 : portOf (getNextPort (portsOf st.used u) ct) with
  | none => rw [h1] at hrun; cases hrun
  | some p1 =>
    rw [h1] at hrun
    cases h2 : portOf (getNextPort (portsOf st.used v) ct) with
    | none => rw [h2] at hrun; cases hrun
    | some p2 =>
      rw [h2] at hrun
      cases hrun
      obtain ⟨hp1u, hp1lt⟩ := portOf_some h1
      obtain ⟨hp2v, hp2lt⟩ := portOf_some h2
      have husame : portsOf (addPortM (addPortM st.used u p1) v p2) u
          = insert p1 (portsOf st.used u) := by
        rw [portsOf_addPortM_other _ v u p2 huv, portsOf_addPortM_same]
      have hvsame : portsOf (addPortM (addPortM st.used u p1) v p2) v
          = insert p2 (portsOf st.used v) := by
        rw [portsOf_addPortM_same, portsOf_addPortM_other _ u v p1 (Ne.symm huv)]
      have hmono : ∀ t, portsOf st.used t ⊆
          portsOf (addPortM (addPortM st.used u p1) v p2) t := fun t =>
        (portsOf_addPortM_subset _ u t p1).trans (portsOf_addPortM_subset _ v t p2)
      obtain ⟨hdis, hpw, hmem, hsrcS, hdstS, hsrcA, hdstA, hrange⟩ := hinv
      refine ⟨?_, ?_, ?_, ?_, ?_, ?_, ?_, ?_⟩
      · intro x hxS hxA
        rcases Finset.mem_insert.mp hxS with h | h
        · exact huA (h ▸ hxA)
        · rcases Finset.mem_insert.mp h with h' | h'
          · exact hvA (h' ▸ hxA)
          · exact hdis x h' hxA
      · rw [List.pairwise_append]
        refine ⟨hpw, ?_, ?_⟩
        · refine List.Pairwise.cons ?_ (List.pairwise_singleton _ _)
          intro b hb
          rcases List.mem_singleton.mp hb with rfl
          rintro ⟨hsk, _⟩
          exact huv hsk
        · intro a ha b hb
          rcases List.mem_cons.mp hb with rfl | hb
          · exact no_samePortKey_of_fresh
              ⟨hdis, hpw, hmem, hsrcS, hdstS, hsrcA, hdstA, hrange⟩ ha huA hp1u
          · rcases List.mem_singleton.mp hb with rfl
            exact no_samePortKey_of_fresh
              ⟨hdis, hpw, hmem, hsrcS, hdstS, hsrcA, hdstA, hrange⟩ ha hvA hp2v
      · intro l hl
        rcases List.mem_append.mp hl with hold | hnew
        · obtain ⟨hs, hd⟩ := hmem l hold
          constructor
          · rcases Finset.mem_union.mp hs with h | h
            · exact Finset.mem_union_left _
                (Finset.mem_insert_of_mem (Finset.mem_insert_of_mem h))
            · exact Finset.mem_union_right _ h
          · rcases Finset.mem_union.mp hd with h | h
            · exact Finset.mem_union_left _
                (Finset.mem_insert_of_mem (Finset.mem_insert_of_mem h))
            · exact Finset.mem_union_right _ h
        · rcases List.mem_cons.mp hnew with rfl | hnew
          · exact ⟨Finset.mem_union_left _ (Finset.mem_insert_self u _),
              Finset.mem_union_left _
                (Finset.mem_insert_of_mem (Finset.mem_insert_self v _))⟩
          · rcases List.mem_singleton.mp hnew with rfl
            exact ⟨Finset.mem_union_left _
                (Finset.mem_insert_of_mem (Finset.mem_insert_self v _)),
              Finset.mem_union_left _ (Finset.mem_insert_self u _)⟩
      · intro l hl hlS
        rcases List.mem_append.mp hl with hold | hnew
        · rcases Finset.mem_union.mp (hmem l hold).1 with h | h
          · exact hmono l.source (hsrcS l hold h)
          · exact absurd h (fun hA' => by
              rcases Finset.mem_insert.mp hlS with h' | h'
              · exact huA (h' ▸ hA')
              · rcases Finset.mem_insert.mp h' with h'' | h''
                · exact hvA (h'' ▸ hA')
                · exact hdis l.source h'' hA')
        · rcases List.mem_cons.mp hnew with rfl | hnew
          · rw [husame]
            exact Finset.mem_insert_self _ _
          · rcases List.mem_singleton.mp hnew with rfl
            rw [hvsame]
            exact Finset.mem_insert_self _ _
      · intro l hl hlS
        rcases List.mem_append.mp hl with hold | hnew
        · rcases Finset.mem_union.mp (hmem l hold).2 with h | h
          · exact hmono l.destination (hdstS l hold h)
          · exact absurd h (fun hA' => by
              rcases Finset.mem_insert.mp hlS with h' | h'
              · exact huA (h' ▸ hA')
              · rcases Finset.mem_insert.mp h' with h'' | h''
                · exact hvA (h'' ▸ hA')
                · exact hdis l.destination h'' hA')
        · rcases List.mem_cons.mp hnew with rfl | hnew
          · rw [hvsame]
            exact Finset.mem_insert_self _ _
          · rcases List.mem_singleton.mp hnew with rfl
            rw [husame]
            exact Finset.mem_insert_self _ _
      · intro l hl hlA
        rcases List.mem_append.mp hl with hold | hnew
        · exact hsrcA l hold hlA
        · rcases List.mem_cons.mp hnew with rfl | hnew
          · exact absurd hlA huA
          · rcases List.mem_singleton.mp hnew with rfl
            exact absurd hlA hvA
      · intro l hl hlA
        rcases List.mem_append.mp hl with hold | hnew
        · exact hdstA l hold hlA
        · rcases List.mem_cons.mp hnew with rfl | hnew
          · exact absurd hlA hvA
          · rcases List.mem_singleton.mp hnew with rfl
            exact absurd hlA huA
      · intro s
        by_cases hsu : s = u
        · subst hsu
          rw [husame]
          intro q hq
          rcases Finset.mem_insert.mp hq with rfl | hq
          · exact Finset.mem_range.mpr hp1lt
          · exact hrange s hq
        · by_cases hsv : s = v
          · subst hsv
            rw [hvsame]
            intro q hq
            rcases Finset.mem_insert.mp hq with rfl | hq
            · exact Finset.mem_range.mpr hp2lt
            · exact hrange s hq
          · rw [portsOf_addPortM_other _ v s p2 hsv, portsOf_addPortM_other _ u s p1 hsu]
            exact hrange s

theorem portInv_attach {st st' : GenState} {S A : Finset String}
    {sw es : String} {d : Nat} {delay : ℚ}
    (hinv : PortInv st S A) (hne : sw ≠ es) (hswA : sw ∉ A) (hesS : es ∉ S)
    (hesA : es ∉ A)
    (hrun : runStep st (Step.attachES sw es d delay) = some st') :
    PortInv st' (insert sw S) (insert es A) := by
  simp only [runStep] at hrun
  cases h1 : portOf (getNextPort (portsOf st.used sw) "switch_to_end_system") with
  | none => rw [h1] at hrun; cases hrun
  | some p =>
    rw [h1] at hrun
    cases hrun
    obtain ⟨hpsw, hplt⟩ := portOf_some h1
    have hswsame : portsOf (addPortM st.used sw p) sw = insert p (portsOf st.used sw) :=
      portsOf_addPortM_same _ _ _
    have hmono : ∀ t, portsOf st.used t ⊆ portsOf (addPortM st.used sw p) t := fun t =>
      portsOf_addPortM_subset _ sw t p
    obtain ⟨hdis, hpw, hmem, hsrcS, hdstS, hsrcA, hdstA, hrange⟩ := hinv
    have hesNotMem : ∀ x ∈ st.links, x.source ≠ es ∧ x.destination ≠ es := by
      intro x hx
      obtain ⟨hs, hd⟩ := hmem x hx
      constructor
      · intro h
        rcases Finset.mem_union.mp hs with h' | h'
        · exact hesS (h ▸ h')
        · exact hesA (h ▸ h')
      · intro h
        rcases Finset.mem_union.mp hd with h' | h'
        · exact hesS (h ▸ h')
        · exact hesA (h ▸ h')
    refine ⟨?_, ?_, ?_, ?_, ?_, ?_, ?_, ?_⟩
    · intro x hxS hxA
      rcases Finset.mem_insert.mp hxS with rfl | hxS'
      · rcases Finset.mem_insert.mp hxA with h | h
        · exact hne h
        · exact hswA h
      · rcases Finset.mem_insert.mp hxA with h | h
        · exact hesS (h ▸ hxS')
        · exact hdis x hxS' h
    · rw [List.pairwise_append]
      refine ⟨hpw, ?_, ?_⟩
      · refine List.Pairwise.cons ?_ (List.pairwise_singleton _ _)
        intro b hb
        rcases List.mem_singleton.mp hb with rfl
        rintro ⟨hsk, _⟩
        exact hne hsk
      · intro a ha b hb
        rcases List.mem_cons.mp hb with rfl | hb
        · exact no_samePortKey_of_fresh
            ⟨hdis, hpw, hmem, hsrcS, hdstS, hsrcA, hdstA, hrange⟩ ha hswA hpsw
        · rcases List.mem_singleton.mp hb with rfl
          rintro ⟨hsk, _⟩
          exact (hesNotMem a ha).1 hsk
    · intro l hl
      rcases List.mem_append.mp hl with hold | hnew
      · obtain ⟨hs, hd⟩ := hmem l hold
        constructor
        · rcases Finset.mem_union.mp hs with h | h
          · exact Finset.mem_union_left _ (Finset.mem_insert_of_mem h)
          · exact Finset.mem_union_right _ (Finset.mem_insert_of_mem h)
        · rcases Finset.mem_union.mp hd with h | h
          · exact Finset.mem_union_left _ (Finset.mem_insert_of_mem h)
          · exact Finset.mem_union_right _ (Finset.mem_insert_of_mem h)
      · rcases List.mem_cons.mp hnew with rfl | hnew
        · exact ⟨Finset.mem_union_left _ (Finset.mem_insert_self sw _),
            Finset.mem_union_right _ (Finset.mem_insert_self es _)⟩
        · rcases List.mem_singleton.mp hnew with rfl
          exact ⟨Finset.mem_union_right _ (Finset.mem_insert_self es _),
            Finset.mem_union_left _ (Finset.mem_insert_self sw _)⟩
    · intro l hl hlS
      rcases List.mem_append.mp hl with hold | hnew
      · rcases Finset.mem_union.mp (hmem l hold).1 with h | h
        · exact hmono l.source (hsrcS l hold h)
        · exact absurd h (fun hA' => by
            rcases Finset.mem_insert.mp hlS with h' | h'
            · exact hswA (h' ▸ hA')
            · exact hdis l.source h' hA')
      · rcases List.mem_cons.mp hnew with rfl | hnew
        · rw [hswsame]
          exact Finset.mem_insert_self _ _
        · rcases List.mem_singleton.mp hnew with rfl
          exact absurd hlS (by
            intro h
            rcases Finset.mem_insert.mp h with h' | h'
            · exact hne h'.symm
            · exact hesS h')
    · intro l hl hlS
      rcases List.mem_append.mp hl with hold | hnew
      · rcases Finset.mem_union.mp (hmem l hold).2 with h | h
        · exact hmono l.destination (hdstS l hold h)
        · exact absurd h (fun hA' => by
            rcases Finset.mem_insert.mp hlS with h' | h'
            · exact hswA (h' ▸ hA')
            · exact hdis l.destination h' hA')
      · rcases List.mem_cons.mp hnew with rfl | hnew
        · exact absurd hlS (by
            intro h
            rcases Finset.mem_insert.mp h with h' | h'
            · exact hne h'.symm
            · exact hesS h')
        · rcases List.mem_singleton.mp hnew with rfl
          rw [hswsame]
          exact Finset.mem_insert_self _ _
    · intro l hl hlA
      rcases List.mem_append.mp hl with hold | hnew
      · rcases Finset.mem_insert.mp hlA with h | h
        · exact absurd h (hesNotMem l hold).1
        · exact hsrcA l hold h
      · rcases List.mem_cons.mp hnew with rfl | hnew
        · exact absurd hlA (by
            intro h
            rcases Finset.mem_insert.mp h with h' | h'
            · exact hne h'
            · exact hswA h')
        · rcases List.mem_singleton.mp hnew with rfl
          rfl
    · intro l hl hlA
      rcases List.mem_append.mp hl with hold | hnew
      · rcases Finset.mem_insert.mp hlA with h | h
        · exact absurd h (hesNotMem l hold).2
        · exact hdstA l hold h
      · rcases List.mem_cons.mp hnew with rfl | hnew
        · rfl
        · rcases List.mem_singleton.mp hnew with rfl
          exact absurd hlA (by
            intro h
            rcases Finset.mem_insert.mp h with h' | h'
            · exact hne h'
            · exact hswA h')
    · intro s
      by_cases hs : s = sw
      · subst hs
        rw [hswsame]
        intro q hq
        rcases Finset.mem_insert.mp hq with rfl | hq
        · exact Finset.mem_range.mpr hplt
        · exact hrange s hq
      · rw [portsOf_addPortM_other _ sw s p hs]
        exact hrange s

theorem portInv_init : PortInv initState ∅ ∅ := by
  refine ⟨?_, ?_, ?_, ?_, ?_, ?_, ?_, ?_⟩ <;>
    simp [initState, portsOf]

theorem portInv_runFrom : ∀ (steps : List Step) (st : GenState) (S A : Finset String)
    (st' : GenState), PortInv st S A → stepsOK steps S A = true →
    runFrom st steps = some st' → ∃ S' A', PortInv st' S' A' := by
  intro steps
  induction steps with
  | nil =>
    intro st S A st' hinv _ h
    cases h
    exact ⟨S, A, hinv⟩
  | cons s rest ih =>
    intro st S A st' hinv hok hrun
    simp only [runFrom] at hrun
    cases hs : runStep st s with
    | none => rw [hs] at hrun; cases hrun
    | some st1 =>
      rw [hs] at hrun
      cases s with
      | connect u v ct du dv delay =>
        simp only [stepsOK, Bool.and_eq_true, decide_eq_true_eq] at hok
        obtain ⟨⟨⟨huv, huA⟩, hvA⟩, hrest⟩ := hok
        exact ih st1 _ _ st' (portInv_connect hinv huv huA hvA hs) hrest hrun
      | attachES sw es d delay =>
        simp only [stepsOK, Bool.and_eq_true, decide_eq_true_eq] at hok
        obtain ⟨⟨⟨⟨hne, hswA⟩, hesS⟩, hesA⟩, hrest⟩ := hok
        exact ih st1 _ _ st' (portInv_attach hinv hne hswA hesS hesA hs) hrest hrun

theorem incidentPorts_bound {st : GenState} {S A : Finset String}
    (hinv : PortInv st S A) (s : String) :
    ∀ q ∈ incidentPorts st.links s, q < 8 := by
  intro q hq
  obtain ⟨hdis, _, hmem, hsrcS, hdstS, hsrcA, hdstA, hrange⟩ := hinv
  unfold incidentPorts at hq
  rcases List.mem_append.mp hq with h | h
  · obtain ⟨l, hl, hfl⟩ := List.mem_filterMap.mp h
    by_cases hls : l.source = s
    · rw [if_pos hls] at hfl
      cases hfl
      rcases Finset.mem_union.mp (hmem l hl).1 with hS | hA
      · exact Finset.mem_range.mp (hrange l.source (hsrcS l hl hS))
      · rw [hsrcA l hl hA]; omega
    · rw [if_neg hls] at hfl
      cases hfl
  · obtain ⟨l, hl, hfl⟩ := List.mem_filterMap.mp h
    by_cases hls : l.destination = s
    · rw [if_pos hls] at hfl
      cases hfl
      rcases Finset.mem_union.mp (hmem l hl).2 with hS | hA
      · exact Finset.mem_range.mp (hrange l.destination (hdstS l hl hS))
      · rw [hdstA l hl hA]; omega
    · rw [if_neg hls] at hfl
      cases hfl

/-- C1: in every topology the generator returns, no two Link records
share the same `(source, sourcePort)` pair, and for every node the set of
ports used by its incident links (source ports of links leaving it,
destination ports of links entering it) lies within `0..7` and therefore
has at most 8 elements — the switch's port capacity. -/
theorem c1_port_uniqueness (steps : List Step) (st : GenState)
    (hok : stepsOK steps ∅ ∅ = true) (hrun : run steps = some st) :
    List.Pairwise (fun l1 l2 => ¬ samePortKey l1 l2) st.links ∧
    ∀ s : String, (incidentPorts st.links s).toFinset ⊆ Finset.range 8 ∧
      (incidentPorts st.links s).toFinset.card ≤ 8 := by
  obtain ⟨S', A', hinv⟩ := portInv_runFrom steps initState ∅ ∅ st portInv_init hok hrun
  refine ⟨hinv.2.1, ?_⟩
  intro s
  have hsub : (incidentPorts st.links s).toFinset ⊆ Finset.range 8 := by
    intro q hq
    rw [List.mem_toFinset] at hq
    exact Finset.mem_range.mpr (incidentPorts_bound hinv s q hq)
  exact ⟨hsub, le_trans (Finset.card_le_card hsub) (by simp)⟩

/-- Witness for C1 on the demo run: pairwise-distinct port keys, and SW0
uses at most its 8 ports. -/
theorem c1_port_uniqueness_witness :
    List.Pairwise (fun l1 l2 => ¬ samePortKey l1 l2) demoGenState.links ∧
    (incidentPorts demoGenState.links "SW0").toFinset.card ≤ 8 :=
  ⟨(c1_port_uniqueness demoSteps demoGenState (by decide) (by decide)).1,
   ((c1_port_uniqueness demoSteps demoGenState (by decide) (by decide)).2 "SW0").2⟩

/-! ## C3: link utilization saturates at 100 -/

theorem bumpUtilization_le_hundred (current share : ℚ) :
    bumpUtilization current share ≤ 100 :=
  min_le_right _ _

theorem updateEdgesForHop_le (es : List REdge) (a b : String) (bw : ℚ)
    (h : ∀ e ∈ es, e.utilization ≤ 100) :
    ∀ e ∈ updateEdgesForHop es a b bw, e.utilization ≤ 100 := by
  induction es with
  | nil => simp [updateEdgesForHop]
  | cons e rest ih =>
    intro x hx
    simp only [updateEdgesForHop] at hx
    by_cases he : e.touches a b
    · rw [if_pos he] at hx
      rcases List.mem_cons.mp hx with rfl | hx
      · exact bumpUtilization_le_hundred _ _
      · exact h x (List.mem_cons_of_mem _ hx)
    · rw [if_neg he] at hx
      rcases List.mem_cons.mp hx with rfl | hx
      · exact h x (List.mem_cons_self _ _)
      · exact ih (fun y hy => h y (List.mem_cons_of_mem _ hy)) x hx

theorem foldl_hops_le (bw : ℚ) :
    ∀ (qs : List (String × String)) (es : List REdge),
      (∀ e ∈ es, e.utilization ≤ 100) →
      ∀ e ∈ qs.foldl (fun es q => updateEdgesForHop es q.1 q.2 bw) es,
        e.utilization ≤ 100 := by
  intro qs
  induction qs with
  | nil => intro es h; simpa using h
  | cons q rest ih =>
    intro es h
    exact ih _ (updateEdgesForHop_le es q.1 q.2 bw h)

theorem foldl_paths_le (bw : ℚ) :
    ∀ (paths : List (List String)) (g : RGraph),
      (∀ e ∈ g.edges, e.utilization ≤ 100) →
      ∀ e ∈ (paths.foldl (fun h p => updatePathUtil h bw p) g).edges,
        e.utilization ≤ 100 := by
  intro paths
  induction paths with
  | nil => intro g h; simpa using h
  | cons p rest ih =>
    intro g h
    apply ih
    exact foldl_hops_le bw (pathPairs p) g.edges h

theorem updateLinkUtilization_le (g : RGraph) (cu : Bool) (stream : Stream)
    (paths : List (List String)) (h : ∀ e ∈ g.edges, e.utilization ≤ 100) :
    ∀ e ∈ (updateLinkUtilization g cu stream paths).edges, e.utilization ≤ 100 := by
  unfold updateLinkUtilization
  split
  · exact h
  · split
    · exact h
    · exact foldl_paths_le _ paths g h

theorem buildGraphAux_util_zero : ∀ (ls : List Link) (ns : List String)
    (es : List REdge) (seen : List (String × String)),
    (∀ e ∈ es, e.utilization = 0) →
    ∀ e ∈ (buildGraphAux ls ns es seen).2, e.utilization = 0 := by
  intro ls
  induction ls with
  | nil => intro ns es seen h; simpa [buildGraphAux] using h
  | cons l rest ih =>
    intro ns es seen h
    simp only [buildGraphAux]
    split
    · exact ih ns es seen h
    · apply ih
      intro e he
      rcases List.mem_append.mp he with h1 | h1
      · exact h e h1
      · rcases List.mem_singleton.mp h1 with rfl
        rfl

theorem buildGraph_util_zero (topo : Topology) :
    ∀ e ∈ (buildGraph topo).edges, e.utilization = 0 := by
  unfold buildGraph
  exact buildGraphAux_util_zero topo.links _ [] [] (by simp)

/-- C3: routing a periodic stream never pushes a link's recorded
utilization above 100; when the running sum would exceed 100 the recorded
value is exactly 100 (saturation, not an error — the update is a total
function). -/
theorem c3_utilization_saturation (g : RGraph) (cu : Bool) (stream : Stream)
    (paths : List (List String)) (h : ∀ e ∈ g.edges, e.utilization ≤ 100) :
    (∀ e ∈ (updateLinkUtilization g cu stream paths).edges, e.utilization ≤ 100) ∧
    (∀ current share : ℚ, 100 < current + share →
      bumpUtilization current share = 100) :=
  ⟨updateLinkUtilization_le g cu stream paths h,
   fun _ _ hcs => min_eq_right (le_of_lt hcs)⟩

/-- Witness for C3: a 90%-utilized link asked to carry 20% more records
exactly 100. -/
theorem c3_utilization_saturation_witness : bumpUtilization 90 20 = 100 :=
  (c3_utilization_saturation (buildGraph demoTopo) true demoStream []
    (fun e he => by rw [buildGraph_util_zero demoTopo e he]; norm_num)).2 90 20
    (by norm_num)

/-! ## C4: path diversity and the shortfall behaviour -/

theorem findPathsExtra_nodup (g : RGraph) (s t : String) (n : Nat) :
    ∀ (fuel : Nat) (ps : List (List String)), ps.Nodup →
      (findPathsExtra g s t n fuel ps).Nodup := by
  intro fuel
  induction fuel with
  | zero => intro ps h; simpa [findPathsExtra] using h
  | succ f ih =>
    intro ps h
    simp only [findPathsExtra]
    split
    · exact h
    · next p hsp =>
      by_cases hp : p ∈ ps
      · rw [if_pos hp]
        exact ih ps h
      · rw [if_neg hp]
        have h' : (ps ++ [p]).Nodup := by
          rw [List.nodup_append]
          refine ⟨h, List.nodup_singleton _, ?_⟩
          intro a ha hb
          rcases List.mem_singleton.mp hb with rfl
          exact hp ha
        by_cases hlen : n ≤ (ps ++ [p]).length
        · rw [if_pos hlen]
          exact h'
        · rw [if_neg hlen]
          exact ih _ h'

theorem findPaths_nodup (g : RGraph) (cu : Bool) (s t : String) (n : Nat) :
    (findPaths g cu s t n).Nodup := by
  unfold findPaths
  split
  · exact List.nodup_nil
  · split
    · exact List.nodup_nil
    · split
      · simp
      · exact (findPathsExtra_nodup g s t n (n - 1) _ (by simp)).sublist
          (List.take_sublist _ _)

theorem findPaths_length (g : RGraph) (cu : Bool) (s t : String) (n : Nat) :
    (findPaths g cu s t n).length ≤ max n 1 := by
  unfold findPaths
  split
  · simp
  · split
    · simp
    · split
      · simp
      · exact le_trans (List.length_take_le _ _) (le_max_left n 1)

/-- C4: the engine requests `redundancy + 1` paths per destination
(definitionally, in `generateRouteForStream`); the returned path list is
always duplicate-free and never longer than requested; and on a topology
with exactly one path between two nodes, a redundancy-1 stream gets
exactly one path and its route is still emitted (the shortfall is only a
warning). -/
theorem c4_path_diversity_shortfall :
    (∀ (g : RGraph) (cu : Bool) (s t : String) (n : Nat),
        (findPaths g cu s t n).Nodup ∧ (findPaths g cu s t n).length ≤ max n 1) ∧
    findPaths (buildGraph twoTopo) false "A" "B" 2 = [["A", "B"]] ∧
    resultPaths (generateRouteForStream twoTopo.links (buildGraph twoTopo) false
        demoTts 250 twoStream).1 = some [[⟨"A", 2⟩, ⟨"B", 0⟩]] :=
  ⟨fun g cu s t n => ⟨findPaths_nodup g cu s t n, findPaths_length g cu s t n⟩,
   by decide, by decide⟩

/-! ## C9 / C10: frame conditions of the utilization state -/

theorem genRFS_snd_cases (topoLinks : List Link) (g : RGraph) (cu : Bool)
    (tts : List TrafficType) (sample : ℚ) (stream : Stream) :
    (∃ r, (generateRouteForStream topoLinks g cu tts sample stream).1 =
      StreamResult.ok r) ∨
    (generateRouteForStream topoLinks g cu tts sample stream).2 = g := by
  unfold generateRouteForStream
  split
  · right; rfl
  · split
    · right; rfl
    · split
      · right; rfl
      · split
        · right; rfl
        · split
          · right; rfl
          · left; exact ⟨_, rfl⟩

/-- C9: a rejected stream (missing endpoint or no path to some
destination) leaves the routing graph — in particular every link's
recorded utilization — exactly as it was; utilization is updated only
after paths to every destination were found. -/
theorem c9_rejected_stream_frame (topoLinks : List Link) (g : RGraph) (cu : Bool)
    (tts : List TrafficType) (sample : ℚ) (stream : Stream)
    (h : (generateRouteForStream topoLinks g cu tts sample stream).1 =
      StreamResult.rejected) :
    (generateRouteForStream topoLinks g cu tts sample stream).2 = g := by
  rcases genRFS_snd_cases topoLinks g cu tts sample stream with ⟨r, hr⟩ | hg
  · rw [hr] at h
    cases h
  · exact hg

/-- Witness for C9: the missing-source stream leaves the demo graph
untouched even with utilization-aware routing enabled. -/
theorem c9_rejected_stream_frame_witness :
    (generateRouteForStream demoTopoLinks (buildGraph demoTopo) true demoTts 250
      badStream).2 = buildGraph demoTopo :=
  c9_rejected_stream_frame demoTopoLinks (buildGraph demoTopo) true demoTts 250
    badStream (by decide)

theorem updateLinkUtilization_off (g : RGraph) (stream : Stream)
    (paths : List (List String)) :
    updateLinkUtilization g false stream paths = g := rfl

theorem genRFS_off_graph (topoLinks : List Link) (g : RGraph)
    (tts : List TrafficType) (sample : ℚ) (stream : Stream) :
    (generateRouteForStream topoLinks g false tts sample stream).2 = g := by
  unfold generateRouteForStream
  split
  · rfl
  · split
    · rfl
    · split
      · rfl
      · split
        · rfl
        · split
          · rfl
          · rfl

theorem generateRoutesAux_off : ∀ (streams : List Stream) (topoLinks : List Link)
    (tts : List TrafficType) (sampleFn : Stream → ℚ) (g : RGraph)
    (res : List Route × RGraph),
    generateRoutesAux topoLinks false tts sampleFn streams g = some res →
    res.2 = g := by
  intro streams
  induction streams with
  | nil =>
    intro _ _ _ g res h
    cases h
    rfl
  | cons s rest ih =>
    intro topoLinks tts sampleFn g res h
    simp only [generateRoutesAux] at h
    cases hres : generateRouteForStream topoLinks g false tts (sampleFn s) s with
    | mk fst snd =>
      rw [hres] at h
      have hsnd : snd = g := by
        have h0 := genRFS_off_graph topoLinks g tts (sampleFn s) s
        rw [hres] at h0
        exact h0
      cases fst with
      | fatal => cases h
      | rejected =>
        rw [hsnd] at h
        exact ih topoLinks tts sampleFn g res h
      | ok r =>
        rw [hsnd] at h
        have h' : Option.map (fun res => (r :: res.1, res.2))
            (generateRoutesAux topoLinks false tts sampleFn rest g) = some res := h
        cases hrec : generateRoutesAux topoLinks false tts sampleFn rest g with
        | none => rw [hrec] at h'; cases h'
        | some res' =>
          rw [hrec] at h'
          cases h'
          exact ih topoLinks tts sampleFn g res' hrec

/-- C10: with utilization-aware routing disabled, route generation leaves
the graph completely unchanged, so every edge's utilization remains the 0
that `_build_graph` initialised — even for periodic streams. -/
theorem c10_no_utilization_when_disabled (topo : Topology)
    (tts : List TrafficType) (sampleFn : Stream → ℚ) (streams : List Stream)
    (res : List Route × RGraph)
    (h : generateRoutes topo false tts sampleFn streams = some res) :
    res.2 = buildGraph topo ∧ ∀ e ∈ res.2.edges, e.utilization = 0 := by
  have h2 := generateRoutesAux_off streams topo.links tts sampleFn (buildGraph topo) res h
  refine ⟨h2, ?_⟩
  rw [h2]
  exact buildGraph_util_zero topo

/-- Witness for C10: a run over a stream list (here one rejected stream)
with utilization tracking off returns the graph exactly as built. -/
theorem c10_no_utilization_when_disabled_witness :
    (([], buildGraph demoTopo) : List Route × RGraph).2 = buildGraph demoTopo :=
  (c10_no_utilization_when_disabled demoTopo demoTts (fun _ => 250) [badStream]
    ([], buildGraph demoTopo) rfl).1

/-! ## C6: missing endpoints reject the stream but never stop the run -/

theorem foldl_paths_nodes (bw : ℚ) : ∀ (paths : List (List String)) (g : RGraph),
    (paths.foldl (fun h p => updatePathUtil h bw p) g).nodes = g.nodes := by
  intro paths
  induction paths with
  | nil => intro g; rfl
  | cons p rest ih =>
    intro g
    rw [List.foldl_cons, ih]
    rfl

theorem updateLinkUtilization_nodes (g : RGraph) (cu : Bool) (stream : Stream)
    (paths : List (List String)) :
    (updateLinkUtilization g cu stream paths).nodes = g.nodes := by
  unfold updateLinkUtilization
  split
  · rfl
  · split
    · rfl
    · exact foldl_paths_nodes _ paths g

theorem genRFS_nodes (topoLinks : List Link) (g : RGraph) (cu : Bool)
    (tts : List TrafficType) (sample : ℚ) (stream : Stream) :
    (generateRouteForStream topoLinks g cu tts sample stream).2.nodes = g.nodes := by
  unfold generateRouteForStream
  split
  · rfl
  · split
    · rfl
    · split
      · rfl
      · split
        · rfl
        · split
          · rfl
          · exact updateLinkUtilization_nodes g cu stream _

theorem genRFS_missing_rejected (topoLinks : List Link) (g : RGraph) (cu : Bool)
    (tts : List TrafficType) (sample : ℚ) (stream : Stream)
    (hbad : stream.source ∉ g.nodes ∨ ∃ d ∈ stream.destinations, d.id ∉ g.nodes) :
    generateRouteForStream topoLinks g cu tts sample stream =
      (StreamResult.rejected, g) := by
  unfold generateRouteForStream
  by_cases hsrc : stream.source ∉ g.nodes
  · rw [if_pos hsrc]
  · rw [if_neg hsrc]
    rcases hbad with hs | ⟨d, hd, hid⟩
    · exact absurd hs hsrc
    · rw [if_pos (List.any_eq_true.mpr ⟨d, hd, by simpa using hid⟩)]

/-- C6: a stream whose source or some destination id is absent from the
routing graph is rejected (no route record), and the run over the stream
list is exactly the run without that stream — every subsequent stream is
still processed. -/
theorem c6_missing_endpoint_is_per_stream (topoLinks : List Link) (cu : Bool)
    (tts : List TrafficType) (sampleFn : Stream → ℚ) (g : RGraph)
    (pre post : List Stream) (bad : Stream)
    (hbad : bad.source ∉ g.nodes ∨ ∃ d ∈ bad.destinations, d.id ∉ g.nodes) :
    (generateRouteForStream topoLinks g cu tts (sampleFn bad) bad).1 =
      StreamResult.rejected ∧
    generateRoutesAux topoLinks cu tts sampleFn (pre ++ bad :: post) g =
      generateRoutesAux topoLinks cu tts sampleFn (pre ++ post) g := by
  have key : ∀ (pre : List Stream) (g' : RGraph), g'.nodes = g.nodes →
      generateRoutesAux topoLinks cu tts sampleFn (pre ++ bad :: post) g' =
        generateRoutesAux topoLinks cu tts sampleFn (pre ++ post) g' := by
    intro pre
    induction pre with
    | nil =>
      intro g' hn
      simp only [List.nil_append, generateRoutesAux]
      rw [genRFS_missing_rejected topoLinks g' cu tts (sampleFn bad) bad
        (by rw [hn]; exact hbad)]
    | cons s pre ih =>
      intro g' hn
      simp only [List.cons_append, generateRoutesAux]
      cases hres : generateRouteForStream topoLinks g' cu tts (sampleFn s) s with
      | mk fst snd =>
        have hsnd : snd.nodes = g.nodes := by
          have h0 := genRFS_nodes topoLinks g' cu tts (sampleFn s) s
          rw [hres] at h0
          rw [h0, hn]
        cases fst with
        | fatal => rfl
        | rejected => exact ih snd hsnd
        | ok r => exact congrArg (Option.map fun res => (r :: res.1, res.2)) (ih snd hsnd)
  constructor
  · rw [genRFS_missing_rejected topoLinks g cu tts (sampleFn bad) bad hbad]
  · exact key pre g rfl

/-- Witness for C6: the missing-source stream is rejected on the demo
topology, and routing `[badStream, demoStream]` emits the same routes as
routing `[demoStream]` alone. -/
theorem c6_missing_endpoint_is_per_stream_witness :
    (generateRouteForStream demoTopoLinks (buildGraph demoTopo) false demoTts 250
      badStream).1 = StreamResult.rejected ∧
    generateRoutesAux demoTopoLinks false demoTts (fun _ => 250)
        ([] ++ badStream :: [demoStream]) (buildGraph demoTopo) =
      generateRoutesAux demoTopoLinks false demoTts (fun _ => 250)
        ([] ++ [demoStream]) (buildGraph demoTopo) :=
  c6_missing_endpoint_is_per_stream demoTopoLinks false demoTts (fun _ => 250)
    (buildGraph demoTopo) [] [demoStream] badStream (Or.inl (by decide))

/-! ## C5: which deadline caps the delay estimate -/

theorem calculateMinE2EDelay_cap {tts : List TrafficType} {sample : ℚ}
    {path : List String} {tt : Option String} {d y : ℚ}
    (hbe : tt ≠ some "BEST-EFFORT")
    (h : calculateMinE2EDelay tts sample path tt (some d) = some y) : y ≤ d := by
  unfold calculateMinE2EDelay at h
  rw [if_neg hbe] at h
  cases hl : tt.bind (fun n => getDelaysFromTrafficType n tts) with
  | none => rw [hl] at h; cases h
  | some pr =>
    rw [hl] at h
    obtain ⟨mi, ma⟩ := pr
    cases mi with
    | none =>
      cases ma with
      | none => cases h
      | some b => cases h
    | some a =>
      cases ma with
      | none => cases h
      | some b =>
        cases h
        exact min_le_right _ _

/-- C5, amended: the delay cap uses the stream record's top-level
`"deadline"` entry (`stream.get("deadline")`); whenever that entry holds
`d` and the traffic type is not best-effort, the emitted route's
`min_e2e_delay` is at most `d`. -/
theorem c5_toplevel_deadline_caps_delay (topoLinks : List Link) (g : RGraph)
    (cu : Bool) (tts : List TrafficType) (sample : ℚ) (stream : Stream)
    (d : ℚ) (r : Route) (hd : stream.deadline = some d)
    (hbe : stream.type ≠ some "BEST-EFFORT")
    (hok : (generateRouteForStream topoLinks g cu tts sample stream).1 =
      StreamResult.ok r) :
    r.minE2EDelay ≤ d := by
  unfold generateRouteForStream at hok
  split at hok
  · cases hok
  · split at hok
    · cases hok
    · split at hok
      · cases hok
      · split at hok
        · cases hok
        · split at hok
          · cases hok
          · next delay hcd =>
            cases hok
            exact calculateMinE2EDelay_cap hbe (hd ▸ hcd)

/-- C5 as stated is false on the code: the route generator reads only a
top-level `"deadline"` key (`stream.get("deadline")`) and never the
deadlines inside the `destinations` records.  Concretely, the
non-best-effort `demoStream` carries deadline 100 on its destination
record, its clipped log-normal draw is 250 (within the type's 100..500
bounds), the path has 3 hops, and the emitted `min_e2e_delay` is
750 > 100. -/
theorem c5_destination_deadline_not_capped :
    demoStream.destinations = [⟨"ES1", some 100⟩] ∧
    demoStream.type = some "ISOCHRONOUS" ∧
    resultDelay (generateRouteForStream demoTopoLinks (buildGraph demoTopo) false
        demoTts 250 demoStream).1 = some 750 ∧
    ¬ (750 : ℚ) ≤ (100 : ℚ) := by
  refine ⟨rfl, rfl, ?_, by norm_num⟩
  have h : resultDelay (generateRouteForStream demoTopoLinks (buildGraph demoTopo)
      false demoTts 250 demoStream).1 =
      some (clip 250 100 500 *
        ((["ES0", "SW0", "SW1", "ES1"].length - 1 : Nat) : ℚ)) := rfl
  rw [h]
  have hclip : clip (250 : ℚ) 100 500 = 250 := by
    unfold clip
    rw [max_eq_left (by norm_num), min_eq_left (by norm_num)]
  rw [hclip]
  norm_num

/-- Witness for C5's amended statement: `capStream` carries a top-level
deadline 300 and its emitted delay respects it. -/
theorem c5_toplevel_deadline_caps_delay_witness :
    (Route.mk 9 [[⟨"ES0", 0⟩, ⟨"SW0", 2⟩, ⟨"SW1", 6⟩, ⟨"ES1", 0⟩]]
      (min (clip 250 100 500 *
        ((["ES0", "SW0", "SW1", "ES1"].length - 1 : Nat) : ℚ)) 300)).minE2EDelay
      ≤ 300 :=
  c5_toplevel_deadline_caps_delay demoTopoLinks (buildGraph demoTopo) false demoTts
    250 capStream 300 _ rfl (by decide) rfl

end TsnCaseGen
